import Mathlib

/-
Verification of the map diff/merge engine in `bcml/mergers/mubin.py`.

The Python functions are shallowly embedded as executable Lean definitions:

* a BYML map document is a record with an `Objs` list; each object carries its
  `HashId`, its `UnitConfigName`, the `DestUnitHashId` targets of its
  `LinksToObj` entries (an object without the field contributes the empty
  list), a flag recording whether the object's printed representation contains
  one of the hard-mode marker strings (`IsHardModeActor` /
  `AoC_HardMode_Enabled`), and an opaque `payload` standing for all remaining
  fields (so two objects are equal exactly when all their fields agree);
* Python dicts are association lists together with `dictSet` / `dictFind`,
  which reproduce dict assignment (replace in place, else append) and lookup;
* Python's stable `sort`/`sorted` is modelled by `List.insertionSort`, which
  is stable and agrees extensionally with any stable sort by the same key;
* file-system lookups performed by `get_stock_map` are abstracted into a
  `GameEnv` record holding, for the one map unit under consideration, the
  result of each lookup the function can attempt.
-/

namespace BCML

/-- Object of a map unit's `Objs` list (`mubin.py` accesses the fields
`HashId`, `UnitConfigName`, `LinksToObj` and compares whole objects). -/
structure Obj where
  hashId : Nat
  unitConfigName : String
  linksToObj : List Nat
  hardModeMarker : Bool
  payload : Nat
deriving DecidableEq

/-- Parsed map unit document: the merger only touches the `Objs` list. -/
structure Doc where
  objs : List Obj
deriving DecidableEq

/-- Python dict assignment `d[k] = v` on an association list: replace the
value of an existing key in place, otherwise append a new entry. -/
def dictSet [BEq κ] (l : List (κ × α)) (k : κ) (v : α) : List (κ × α) :=
  if l.any (fun p => p.1 == k) then
    l.map (fun p => if p.1 == k then (k, v) else p)
  else l ++ [(k, v)]

/-- Python dict lookup `d[k]` / `d.get(k)` on an association list. -/
def dictFind [BEq κ] (l : List (κ × α)) (k : κ) : Option α :=
  (l.find? (fun p => p.1 == k)).map (fun p => p.2)

/-- Python `k in d` on an association list. -/
def hasKey [BEq κ] (l : List (κ × α)) (k : κ) : Bool :=
  l.any (fun p => p.1 == k)

theorem dictSet_cons_ne [BEq κ] (p : κ × α) (t : List (κ × α)) (k : κ) (v : α)
    (h : (p.1 == k) = false) : dictSet (p :: t) k v = p :: dictSet t k v := by
  unfold dictSet
  simp only [List.any_cons, h, Bool.false_or]
  by_cases ht : t.any (fun q => q.1 == k) = true
  · simp [ht, h]
  · simp only [Bool.not_eq_true] at ht
    simp [ht, h]

theorem dictFind_dictSet_self [BEq κ] [LawfulBEq κ] (l : List (κ × α)) (k : κ) (v : α) :
    dictFind (dictSet l k v) k = some v := by
  induction l with
  | nil => simp [dictSet, dictFind]
  | cons p t ih =>
    by_cases h : (p.1 == k) = true
    · unfold dictSet
      simp only [List.any_cons, h, Bool.true_or, if_pos]
      simp [dictFind, List.find?, h]
    · simp only [Bool.not_eq_true] at h
      rw [dictSet_cons_ne p t k v h]
      simpa [dictFind, List.find?, h] using ih

theorem dictFind_map_replace [BEq κ] [LawfulBEq κ] (t : List (κ × α)) (k k' : κ) (v : α)
    (hk : (k == k') = false) :
    dictFind (t.map (fun p => if p.1 == k then (k, v) else p)) k' = dictFind t k' := by
  induction t with
  | nil => rfl
  | cons q s ihs =>
    by_cases hq : (q.1 == k) = true
    · have hq' : (q.1 == k') = false := by rw [eq_of_beq hq]; exact hk
      simpa [dictFind, List.find?, hq, hk, hq'] using ihs
    · simp only [Bool.not_eq_true] at hq
      cases hq' : (q.1 == k') with
      | true => simp [dictFind, List.find?, hq, hq']
      | false => simpa [dictFind, List.find?, hq, hq'] using ihs

theorem dictFind_dictSet_ne [BEq κ] [LawfulBEq κ] (l : List (κ × α)) (k k' : κ) (v : α)
    (h : (k' == k) = false) : dictFind (dictSet l k v) k' = dictFind l k' := by
  have hk : (k == k') = false := by
    cases hkk : k == k' with
    | false => rfl
    | true => simp [eq_of_beq hkk] at h
  induction l with
  | nil => simp [dictSet, dictFind, List.find?, hk]
  | cons p t ih =>
    by_cases hp : (p.1 == k) = true
    · have hp1 : p.1 = k := eq_of_beq hp
      have hp' : (p.1 == k') = false := by rw [hp1]; exact hk
      unfold dictSet
      simp only [List.any_cons, hp, Bool.true_or, if_pos]
      have := dictFind_map_replace t k k' v hk
      simpa [dictFind, List.find?, hp, hk, hp'] using this
    · simp only [Bool.not_eq_true] at hp
      rw [dictSet_cons_ne p t k v hp]
      cases hp' : (p.1 == k') with
      | true => simp [dictFind, List.find?, hp']
      | false => simpa [dictFind, List.find?, hp'] using ih

/-! ### `get_map_diff` (diff computer), `mubin.py` lines 137-168 -/

/-- Identities protected from deletion: every `DestUnitHashId` referenced by
some baseline object's `LinksToObj` list (`mubin.py` lines 153-158; the set is
only built when `link_del` is false). -/
def baseLinkIds (base : Doc) : List Nat :=
  (base.objs.map (fun o => o.linksToObj)).flatten

/-- Structural diff of one map unit: `add` keeps encounter order, `mod` is a
dict keyed by `HashId`, `del` is a list of `HashId`s. -/
structure MapDiffT where
  add : List Obj
  mod : List (Nat × Obj)
  del : List Nat
deriving DecidableEq

/-- Diff of a modified map unit against an already-loaded baseline document
(`mubin.py` lines 139-168, the part after the stock-map selection). -/
def get_map_diff (base : Doc) (mod_map : Doc) (no_del : Bool) (link_del : Bool) :
    MapDiffT :=
  let base_hashes := base.objs.map (fun o => o.hashId)
  let base_links : List Nat := if link_del then [] else baseLinkIds base
  let mod_hashes := mod_map.objs.map (fun o => o.hashId)
  let step := fun (d : MapDiffT) (o : Obj) =>
    if o.hashId ∈ base_hashes then
      match base.objs.get? (base_hashes.indexOf o.hashId) with
      | some b => if o ≠ b then { d with mod := dictSet d.mod o.hashId o } else d
      | none => d
    else { d with add := d.add ++ [o] }
  let diffs := mod_map.objs.foldl step { add := [], mod := [], del := [] }
  { diffs with
    del := base_hashes.filter (fun h =>
      decide (h ∉ mod_hashes) && !no_del && !(!link_del && decide (h ∈ base_links))) }

theorem get_map_diff_del_iff (base mod_map : Doc) (no_del link_del : Bool) (h : Nat) :
    h ∈ (get_map_diff base mod_map no_del link_del).del ↔
      (h ∈ base.objs.map (fun o => o.hashId) ∧ h ∉ mod_map.objs.map (fun o => o.hashId) ∧
       no_del = false ∧ (link_del = true ∨ h ∉ baseLinkIds base)) := by
  cases no_del <;> cases link_del <;>
    simp [get_map_diff, List.mem_filter, and_assoc]

/-- Baseline of the link-protection example: object 1 and object 2, where
object 2 links to object 1. -/
def exBaseC4 : Doc :=
  ⟨[{ hashId := 1, unitConfigName := "A", linksToObj := [], hardModeMarker := false,
      payload := 0 },
    { hashId := 2, unitConfigName := "B", linksToObj := [1], hardModeMarker := false,
      payload := 0 }]⟩

/-- Modified document of the link-protection example: object 1 is omitted. -/
def exModC4 : Doc :=
  ⟨[{ hashId := 2, unitConfigName := "B", linksToObj := [1], hardModeMarker := false,
      payload := 0 }]⟩

/-- C4: the `del` field of `get_map_diff` holds exactly the baseline `HashId`s
absent from the modified document, except that it is empty when `no_del` is
set, and ids referenced by any baseline `LinksToObj` entry are excluded unless
`link_del` is set; in particular, for a baseline `{1}, {2, links to 1}` and a
modified document omitting object 1, `del` is `[]` with `link_del` off and
`[1]` with `link_del` on. -/
theorem get_map_diff_del_spec :
    (∀ (base mod_map : Doc) (no_del link_del : Bool) (h : Nat),
      h ∈ (get_map_diff base mod_map no_del link_del).del ↔
        (h ∈ base.objs.map (fun o => o.hashId) ∧ h ∉ mod_map.objs.map (fun o => o.hashId) ∧
         no_del = false ∧ (link_del = true ∨ h ∉ baseLinkIds base))) ∧
    (get_map_diff exBaseC4 exModC4 false false).del = [] ∧
    (get_map_diff exBaseC4 exModC4 false true).del = [1] :=
  ⟨get_map_diff_del_iff, by decide, by decide⟩

/-! ### `MapMerger.consolidate_diffs`, `mubin.py` lines 347-374 -/

/-- Document-group key, the `Map` namedtuple `(section, type)` obtained by
splitting a map file's base name on `_`. -/
structure MapKey where
  sect : String
  type : String
deriving DecidableEq

/-- One step of the grouping loop (`mubin.py` lines 350-354). The source line
352 reads `if a_map not in diffs:`, testing the `Map` key against the per-mod
diff dicts that make up the input list `diffs` (not against `a_diffs`); a
`Map` tuple never compares equal to such a dict, so the guard always fires
and the accumulated list for the key is reset to `[]` before the append. -/
def groupStep (acc : List (MapKey × List MapDiffT)) (kd : MapKey × MapDiffT) :
    List (MapKey × List MapDiffT) :=
  let acc1 := dictSet acc kd.1 []
  dictSet acc1 kd.1 ((dictFind acc1 kd.1).getD [] ++ [kd.2])

/-- Grouping of all per-mod diffs by document-group key (`mubin.py` lines
348-354); the outer iteration is over mods in ascending priority order. -/
def groupDiffs (diffs : List (List (MapKey × MapDiffT))) : List (MapKey × List MapDiffT) :=
  diffs.foldl (fun acc mod_diff => mod_diff.foldl groupStep acc) []

/-- Consolidation of the grouped per-mod diffs of one document group
(`mubin.py` lines 356-371): `del` is `list(set(...))` over all mods (modelled
with `dedup`, which is membership-equivalent to Python's set), `mod` is
written in forward mod order (later mods overwrite), `add` is collected over
`reversed(mods)` keeping only the first occurrence of each `HashId`. -/
def consolidateOne (mods : List MapDiffT) : MapDiffT :=
  let dels := ((mods.map (fun m => m.del)).flatten).dedup
  let modMap := mods.foldl
    (fun acc m => m.mod.foldl (fun acc p => dictSet acc p.1 p.2) acc) []
  let addState := mods.reverse.foldl
    (fun (st : List Nat × List Obj) m =>
      m.add.foldl
        (fun (st : List Nat × List Obj) actor =>
          if actor.hashId ∈ st.1 then st
          else (st.1 ++ [actor.hashId], st.2 ++ [actor])) st) ([], [])
  { add := addState.2, mod := modMap, del := dels }

/-- Full consolidation over an ascending-priority list of per-mod diff logs. -/
def consolidate_diffs (diffs : List (List (MapKey × MapDiffT))) :
    List (MapKey × MapDiffT) :=
  (groupDiffs diffs).map (fun p => (p.1, consolidateOne p.2))

/-- Lookup of one document group's consolidated diff. -/
def lookupDiff (l : List (MapKey × MapDiffT)) (k : MapKey) : MapDiffT :=
  (dictFind l k).getD { add := [], mod := [], del := [] }

/-- Document group used by the concrete consolidation examples. -/
def keyF : MapKey := ⟨"A-1", "Dynamic"⟩

/-- Payload X of the add-asymmetry example (added by the priority-1 mod). -/
def objX : Obj := ⟨5, "X", [], false, 1⟩

/-- Payload Y of the add-asymmetry example (added by the priority-2 mod). -/
def objY : Obj := ⟨5, "Y", [], false, 2⟩

/-- Two mods, in ascending priority order, each adding `HashId` 5. -/
def diffsC1add : List (List (MapKey × MapDiffT)) :=
  [[(keyF, { add := [objX], mod := [], del := [] })],
   [(keyF, { add := [objY], mod := [], del := [] })]]

/-- C1 counterexample: when mod A (priority 1) adds `HashId` 5 with payload X
and mod B (priority 2) adds `HashId` 5 with payload Y, the consolidated `add`
list is `[Y]` — it does not contain the lowest-priority payload X claimed. -/
theorem consolidate_add_lowest_counterexample :
    (lookupDiff (consolidate_diffs diffsC1add) keyF).add = [objY] ∧
    objX ∉ (lookupDiff (consolidate_diffs diffsC1add) keyF).add := by decide

/-- C1 (amended): with mod A (priority 1) and mod B (priority 2) both adding
`HashId` 5, the consolidated `add` list retains the highest-priority mod's
payload Y; and when both mods modify `HashId` 5, the consolidated `mod` map
likewise holds payload Y — both fields resolve to the highest-priority
version. -/
theorem consolidate_add_mod_highest_wins (oX oY : Obj)
    (hx : oX.hashId = 5) (hy : oY.hashId = 5) :
    (lookupDiff (consolidate_diffs
        [[(keyF, { add := [oX], mod := [], del := [] })],
         [(keyF, { add := [oY], mod := [], del := [] })]]) keyF).add = [oY] ∧
    dictFind (lookupDiff (consolidate_diffs
        [[(keyF, { add := [], mod := [(oX.hashId, oX)], del := [] })],
         [(keyF, { add := [], mod := [(oY.hashId, oY)], del := [] })]]) keyF).mod 5
      = some oY := by
  rw [hx, hy]
  exact ⟨rfl, rfl⟩

/-- Witness instantiating `consolidate_add_mod_highest_wins` at the concrete
payloads X and Y. -/
theorem consolidate_add_mod_highest_wins_witness :
    objX.hashId = 5 ∧ objY.hashId = 5 ∧
    ((lookupDiff (consolidate_diffs
        [[(keyF, { add := [objX], mod := [], del := [] })],
         [(keyF, { add := [objY], mod := [], del := [] })]]) keyF).add = [objY] ∧
     dictFind (lookupDiff (consolidate_diffs
        [[(keyF, { add := [], mod := [(objX.hashId, objX)], del := [] })],
         [(keyF, { add := [], mod := [(objY.hashId, objY)], del := [] })]]) keyF).mod 5
       = some objY) :=
  ⟨by decide, by decide, consolidate_add_mod_highest_wins objX objY (by decide) (by decide)⟩

/-- Two mods, in ascending priority order, deleting `HashId` 1 and `HashId` 2
respectively from the same document group. -/
def diffsC2 : List (List (MapKey × MapDiffT)) :=
  [[(keyF, { add := [], mod := [], del := [1] })],
   [(keyF, { add := [], mod := [], del := [2] })]]

/-- C2 (code-bug evidence): the consolidated `del` for two mods deleting ids 1
and 2 is `[2]`, not the union `{1, 2}` — the grouping loop's
`if a_map not in diffs:` guard (which always fires) resets the per-group list,
so only the last mod's diff record survives consolidation. -/
theorem consolidate_del_not_union :
    (lookupDiff (consolidate_diffs diffsC2) keyF).del = [2] ∧
    1 ∉ (lookupDiff (consolidate_diffs diffsC2) keyF).del := by decide

/-! ### `merge_map` (merge applier), `mubin.py` lines 186-214

Only the document transformation is modelled (loading, serialization and the
disk writes around it are the orchestrator's effects, handled separately).
Python's stable `list.sort`/`sorted` is modelled by `List.insertionSort`. -/

/-- Sort key of the deletion pass (`mubin.py` lines 198-199):
`stock_hashes.index(change) if change in stock_hashes else -1`. -/
def delKey (stock : List Nat) (d : Nat) : Int :=
  if d ∈ stock then (stock.indexOf d : Int) else -1

/-- Order of the deletion pass: descending by `delKey` (`reverse=True`). -/
def delOrder (stock : List Nat) (a b : Nat) : Prop :=
  delKey stock b ≤ delKey stock a

instance (stock : List Nat) : DecidableRel (delOrder stock) :=
  fun a b => inferInstanceAs (Decidable (delKey stock b ≤ delKey stock a))

instance (stock : List Nat) : IsTotal Nat (delOrder stock) :=
  ⟨fun a b => Int.le_total (delKey stock b) (delKey stock a)⟩

instance (stock : List Nat) : IsTrans Nat (delOrder stock) :=
  ⟨fun _ _ _ hab hbc => le_trans hbc hab⟩

/-- One deletion (`mubin.py` lines 200-210): pop by the id's position in the
original baseline id list; on `IndexError` fall back to removing the first
object carrying the id (removing nothing if none is found). -/
def delStep (stock : List Nat) (objs : List Obj) (d : Nat) : List Obj :=
  if d ∈ stock then
    if stock.indexOf d < objs.length then objs.eraseIdx (stock.indexOf d)
    else objs.eraseP (fun a => a.hashId == d)
  else objs

/-- Ascending final sort order (`mubin.py` line 214). -/
def hashLe (a b : Obj) : Prop := a.hashId ≤ b.hashId

instance : DecidableRel hashLe :=
  fun a b => inferInstanceAs (Decidable (a.hashId ≤ b.hashId))

instance : IsTotal Obj hashLe := ⟨fun a b => Nat.le_total a.hashId b.hashId⟩

instance : IsTrans Obj hashLe := ⟨fun _ _ _ => Nat.le_trans⟩

/-- One step of the modification pass (`mubin.py` lines 192-196): replace the
object at the id's baseline position, or — when the id is absent from the
baseline, the `ValueError` branch — append the actor to the add list. -/
def modPass (stock : List Nat) (st : List Obj × List Obj) (p : Nat × Obj) :
    List Obj × List Obj :=
  if p.1 ∈ stock then (st.1.set (stock.indexOf p.1) p.2, st.2)
  else (st.1, st.2 ++ [p.2])

/-- Object-list transformation of `merge_map` (`mubin.py` lines 190-214):
modification pass, deletion pass in descending baseline position order,
append of the add records whose id is not in the original baseline id list,
and the final ascending stable sort by `HashId`. -/
def merge_map_objs (base : List Obj) (changes : MapDiffT) (no_del : Bool) : List Obj :=
  let stock_hashes := base.map (fun o => o.hashId)
  let modState := changes.mod.foldl (modPass stock_hashes) (base, [])
  let objs1 := modState.1
  let adds := changes.add ++ modState.2
  let objs2 :=
    if no_del then objs1
    else (List.insertionSort (delOrder stock_hashes) changes.del).foldl
      (delStep stock_hashes) objs1
  let objs3 := objs2 ++ adds.filter (fun c => !(decide (c.hashId ∈ stock_hashes)))
  List.insertionSort hashLe objs3

/-- C5 (amended): the object list produced by `merge_map` is always sorted
non-decreasingly by `HashId`. -/
theorem merge_map_objs_sorted (base : List Obj) (changes : MapDiffT) (no_del : Bool) :
    List.Sorted hashLe (merge_map_objs base changes no_del) := by
  unfold merge_map_objs
  exact List.sorted_insertionSort hashLe _

/-- Baseline object of the duplicate-id example. -/
def o1C5 : Obj := ⟨1, "A", [], false, 0⟩

/-- Add record of the duplicate-id example, id 5. -/
def oAddC5 : Obj := ⟨5, "B", [], false, 1⟩

/-- Mod record of the duplicate-id example, also id 5, absent from baseline. -/
def oModC5 : Obj := ⟨5, "C", [], false, 2⟩

/-- Consolidated diff whose `mod` entry's id is absent from the apply-time
baseline (the situation `merge_map` line 196 explicitly handles) while an
`add` record carries the same id. -/
def changesC5 : MapDiffT := { add := [oAddC5], mod := [(5, oModC5)], del := [] }

/-- C5 counterexample: for baseline `[{HashId 1}]` and `changesC5`, the merged
object list is `[1, 5, 5]` — sorted, but with two objects sharing `HashId` 5,
hence not strictly ascending. -/
theorem merge_map_objs_not_strict :
    merge_map_objs [o1C5] changesC5 false = [o1C5, oAddC5, oModC5] ∧
    ¬ List.Pairwise (fun a b : Obj => a.hashId < b.hashId)
        (merge_map_objs [o1C5] changesC5 false) := by decide

theorem filter_erase_of_neg {α' : Type} [DecidableEq α'] (p : α' → Bool) (l : List α')
    (a : α') (h : p a = false) : (l.erase a).filter p = l.filter p := by
  induction l with
  | nil => rfl
  | cons b t ih =>
    rw [List.erase_cons]
    by_cases hb : b = a
    · subst hb
      simp [List.filter_cons, h]
    · have : (b == a) = false := beq_false_of_ne hb
      rw [if_neg (by simp [hb])]
      cases hp : p b <;> simp [List.filter_cons, hp, ih]

/-- C6 (amended): an `add` record whose `HashId` already exists in the
apply-time baseline is skipped entirely — removing it from the consolidated
`add` list leaves the merge result unchanged, so it is neither appended as a
duplicate nor applied as a modification; uniqueness is preserved by dropping
the record. -/
theorem merge_map_add_existing_skipped (base : List Obj) (changes : MapDiffT)
    (a : Obj) (no_del : Bool) (hid : a.hashId ∈ base.map (fun o => o.hashId)) :
    merge_map_objs base { changes with add := changes.add.erase a } no_del =
      merge_map_objs base changes no_del := by
  have hpa : (fun c : Obj => !(decide (c.hashId ∈ base.map (fun o => o.hashId)))) a
      = false := by simp [hid]
  have hfe := filter_erase_of_neg
    (fun c : Obj => !(decide (c.hashId ∈ base.map (fun o => o.hashId))))
    changes.add a hpa
  unfold merge_map_objs
  simp only [List.filter_append]
  rw [hfe]

/-- Baseline object of the existing-id add example (payload P). -/
def o5P : Obj := ⟨5, "P", [], false, 0⟩

/-- Add record of the existing-id add example (payload Q, same id 5). -/
def o5Q : Obj := ⟨5, "Q", [], false, 1⟩

/-- Witness instantiating `merge_map_add_existing_skipped`: dropping the
conflicting add record `o5Q` from the diff leaves the merge unchanged. -/
theorem merge_map_add_existing_skipped_witness :
    o5Q.hashId ∈ [o5P].map (fun o => o.hashId) ∧
    merge_map_objs [o5P]
        { add := List.erase [o5Q] o5Q, mod := [], del := [] } false =
      merge_map_objs [o5P] { add := [o5Q], mod := [], del := [] } false :=
  ⟨by decide,
   merge_map_add_existing_skipped [o5P] { add := [o5Q], mod := [], del := [] }
     o5Q false (by decide)⟩

/-- C6 counterexample: with baseline `[{HashId 5, payload P}]` and an add
record `{HashId 5, payload Q}`, the merge result keeps the baseline object P
untouched and discards Q — the add record is not treated as a modification
(which would have produced payload Q). -/
theorem merge_map_add_existing_not_mod :
    merge_map_objs [o5P] { add := [o5Q], mod := [], del := [] } false = [o5P] ∧
    o5Q ∉ merge_map_objs [o5P] { add := [o5Q], mod := [], del := [] } false ∧
    o5P ≠ o5Q := by decide

theorem set_getElem_eq {α' : Type} (l : List α') (i : Nat) (hi : i < l.length) :
    l.set i (l[i]) = l := by
  induction l generalizing i with
  | nil => simp at hi
  | cons b t ih =>
    cases i with
    | zero => simp
    | succ j => simpa using ih j (by simpa using hi)

theorem hashId_getElem_of_map_eq (objs0 : List Obj) (stock : List Nat)
    (hal : objs0.map (fun o => o.hashId) = stock) (j : Nat) (hj : j < objs0.length)
    (hjs : j < stock.length) : (objs0[j]).hashId = stock[j] := by
  have hq : (objs0.map (fun o => o.hashId))[j]? = stock[j]? := by rw [hal]
  rw [List.getElem?_map, List.getElem?_eq_getElem hj, List.getElem?_eq_getElem hjs] at hq
  simpa using hq

theorem modFold_map_hashId (stock : List Nat) (mods : List (Nat × Obj)) :
    ∀ (st : List Obj × List Obj), st.1.map (fun o => o.hashId) = stock →
      (∀ p ∈ mods, (p.2).hashId = p.1) →
      (mods.foldl (modPass stock) st).1.map (fun o => o.hashId) = stock := by
  induction mods with
  | nil => intro st h _; simpa using h
  | cons p t ih =>
    intro st hst hwf
    rw [List.foldl_cons]
    refine ih (modPass stock st p) ?_ (fun q hq => hwf q (List.mem_cons_of_mem p hq))
    unfold modPass
    by_cases hp : p.1 ∈ stock
    · rw [if_pos hp]
      have hi : stock.indexOf p.1 < stock.length := List.indexOf_lt_length.mpr hp
      have hpid : (p.2).hashId = p.1 := hwf p (List.mem_cons_self p t)
      calc (st.1.set (stock.indexOf p.1) p.2).map (fun o => o.hashId)
          = (st.1.map (fun o => o.hashId)).set (stock.indexOf p.1) ((p.2).hashId) :=
            List.map_set
        _ = stock.set (stock.indexOf p.1) (stock[stock.indexOf p.1]) := by
            rw [hst, hpid, List.getElem_indexOf hi]
        _ = stock := set_getElem_eq stock _ hi
    · rw [if_neg hp]; exact hst

theorem eraseIdx_eq_filter_of_unique (l : List Obj) (i : Nat) (d : Nat)
    (hi : i < l.length) (hd : (l[i]).hashId = d)
    (huniq : ∀ (j : Nat) (hj : j < l.length), (l[j]).hashId = d → j = i) :
    l.eraseIdx i = l.filter (fun o => !(o.hashId == d)) := by
  induction l generalizing i with
  | nil => simp at hi
  | cons b t ih =>
    cases i with
    | zero =>
      have hb : b.hashId = d := hd
      have ht : ∀ o ∈ t, (!(o.hashId == d)) = true := by
        intro o ho
        obtain ⟨j, hj, hjo⟩ := List.getElem_of_mem ho
        have hne : o.hashId ≠ d := by
          intro hod
          have hj1 : (j+1) < (b :: t).length := by simpa using Nat.succ_lt_succ hj
          have hjd : ((b :: t)[j+1]).hashId = d := by
            simp only [List.getElem_cons_succ]
            rw [hjo]; exact hod
          exact Nat.succ_ne_zero j (huniq (j+1) hj1 hjd)
        simp [hne]
      have hfb : (!(b.hashId == d)) = false := by simp [hb]
      rw [List.eraseIdx_cons_zero, List.filter_cons, hfb, if_neg (by simp)]
      exact (List.filter_eq_self.mpr ht).symm
    | succ j =>
      have hjt : j < t.length := by simpa using hi
      have hbne : b.hashId ≠ d := by
        intro hbd
        have := huniq 0 (Nat.succ_pos _) hbd
        omega
      have htd : (t[j]).hashId = d := hd
      have huniq' : ∀ (k : Nat) (hk : k < t.length), (t[k]).hashId = d → k = j := by
        intro k hk hkd
        have := huniq (k+1) (by simpa using Nat.succ_lt_succ hk) hkd
        omega
      simp only [List.eraseIdx_cons_succ, List.filter_cons]
      rw [if_pos (by simp [hbne]), ih j hjt htd huniq']

theorem filter_take_eq {α' : Type} (l : List α') (p : α' → Bool) (k : Nat)
    (h : ∀ x ∈ l.take k, p x = true) : (l.filter p).take k = l.take k := by
  have h1 : l.filter p = l.take k ++ (l.drop k).filter p := by
    conv_lhs => rw [← List.take_append_drop k l]
    rw [List.filter_append, List.filter_eq_self.mpr h]
  rw [h1]
  by_cases hk : k ≤ l.length
  · have hlen : (l.take k).length = k := by rw [List.length_take]; omega
    have h2 := List.take_left (l.take k) ((l.drop k).filter p)
    rw [hlen] at h2
    exact h2
  · push_neg at hk
    have hdrop : l.drop k = [] := List.drop_eq_nil_of_le (le_of_lt hk)
    rw [hdrop]
    simp [List.take_of_length_le (le_of_lt hk)]

theorem getElem_eq_of_take_succ_eq {α' : Type} (l m : List α') (i : Nat)
    (hl : i < l.length) (hm : i < m.length) (h : l.take (i+1) = m.take (i+1)) :
    l[i] = m[i] := by
  have h1 : l[i]? = m[i]? := by
    rw [← List.getElem?_take_of_lt (l := l) (Nat.lt_succ_self i), h,
      List.getElem?_take_of_lt (Nat.lt_succ_self i)]
  rw [List.getElem?_eq_getElem hl, List.getElem?_eq_getElem hm] at h1
  exact Option.some.inj h1

theorem delFold_eq_filter (stock : List Nat) (objs0 : List Obj)
    (hal : objs0.map (fun o => o.hashId) = stock) (hnd : stock.Nodup) :
    ∀ (L : List Nat) (objs : List Obj),
      List.Sorted (delOrder stock) L → L.Nodup → List.Sublist objs objs0 →
      (∀ d ∈ L, d ∈ stock →
        objs.take (stock.indexOf d + 1) = objs0.take (stock.indexOf d + 1)) →
      List.foldl (delStep stock) objs L
        = objs.filter (fun o => !(decide (o.hashId ∈ L))) := by
  intro L
  induction L with
  | nil => intro objs _ _ _ _; simp
  | cons d0 L2 ih =>
    intro objs hsort hnodup hsub hpref
    have hsort2 : List.Sorted (delOrder stock) L2 := (List.sorted_cons.mp hsort).2
    have hhead : ∀ d ∈ L2, delOrder stock d0 d := (List.sorted_cons.mp hsort).1
    have hnodup2 : L2.Nodup := hnodup.of_cons
    have hd0notin : d0 ∉ L2 := (List.nodup_cons.mp hnodup).1
    have hmids : List.Sublist (objs.map (fun o => o.hashId)) stock := by
      have h := hsub.map (fun o => o.hashId)
      rwa [hal] at h
    have hmidnd : (objs.map (fun o => o.hashId)).Nodup := List.Nodup.sublist hmids hnd
    have hlen0 : objs0.length = stock.length := by
      rw [← hal, List.length_map]
    rw [List.foldl_cons]
    by_cases hd0 : d0 ∈ stock
    · have hilt_stock : stock.indexOf d0 < stock.length := List.indexOf_lt_length.mpr hd0
      have hstock_i : stock[stock.indexOf d0] = d0 :=
        List.getElem_indexOf hilt_stock
      have htake := hpref d0 (List.mem_cons_self d0 L2) hd0
      have hilt : stock.indexOf d0 < objs.length := by
        have h1 : (objs.take (stock.indexOf d0 + 1)).length
            = (objs0.take (stock.indexOf d0 + 1)).length := by rw [htake]
        rw [List.length_take, List.length_take] at h1
        omega
      have hilt0 : stock.indexOf d0 < objs0.length := by omega
      have hobj_i : (objs[stock.indexOf d0]).hashId = d0 := by
        have he : objs[stock.indexOf d0] = objs0[stock.indexOf d0] :=
          getElem_eq_of_take_succ_eq objs objs0 _ hilt hilt0 htake
        rw [he, hashId_getElem_of_map_eq objs0 stock hal _ hilt0 hilt_stock, hstock_i]
      have huniq : ∀ (j : Nat) (hj : j < objs.length),
          (objs[j]).hashId = d0 → j = stock.indexOf d0 := by
        intro j hj hjd
        have hj2 : j < (objs.map (fun o => o.hashId)).length := by simpa using hj
        have hi2 : stock.indexOf d0 < (objs.map (fun o => o.hashId)).length := by
          simpa using hilt
        have r1 := List.indexOf_getElem hmidnd j hj2
        have r2 := List.indexOf_getElem hmidnd (stock.indexOf d0) hi2
        rw [List.getElem_map] at r1 r2
        rw [hjd] at r1
        rw [hobj_i] at r2
        omega
      have hstep : delStep stock objs d0
          = objs.filter (fun o => !(o.hashId == d0)) := by
        unfold delStep
        rw [if_pos hd0, if_pos hilt]
        exact eraseIdx_eq_filter_of_unique objs _ d0 hilt hobj_i huniq
      rw [hstep]
      have hpref2 : ∀ d ∈ L2, d ∈ stock →
          (objs.filter (fun o => !(o.hashId == d0))).take (stock.indexOf d + 1)
            = objs0.take (stock.indexOf d + 1) := by
        intro d hd hds
        have hdne : d ≠ d0 := fun he => hd0notin (he ▸ hd)
        have hidlt : stock.indexOf d < stock.length := List.indexOf_lt_length.mpr hds
        have horder : delOrder stock d0 d := hhead d hd
        have hkd : delKey stock d = (stock.indexOf d : Int) := by
          unfold delKey; rw [if_pos hds]
        have hkd0 : delKey stock d0 = (stock.indexOf d0 : Int) := by
          unfold delKey; rw [if_pos hd0]
        have hle : stock.indexOf d ≤ stock.indexOf d0 := by
          unfold delOrder at horder
          rw [hkd, hkd0] at horder
          exact_mod_cast horder
        have hne2 : stock.indexOf d ≠ stock.indexOf d0 := by
          intro he; exact hdne ((List.indexOf_inj hds hd0).mp he)
        have hlt : stock.indexOf d < stock.indexOf d0 := lt_of_le_of_ne hle hne2
        have hsmall : objs.take (stock.indexOf d + 1)
            = objs0.take (stock.indexOf d + 1) := by
          have h1 : objs.take (stock.indexOf d + 1)
              = (objs.take (stock.indexOf d0 + 1)).take (stock.indexOf d + 1) := by
            rw [List.take_take, Nat.min_eq_left (by omega)]
          have h2 : objs0.take (stock.indexOf d + 1)
              = (objs0.take (stock.indexOf d0 + 1)).take (stock.indexOf d + 1) := by
            rw [List.take_take, Nat.min_eq_left (by omega)]
          rw [h1, h2, htake]
        have hfil : ∀ x ∈ objs.take (stock.indexOf d + 1), (!(x.hashId == d0)) = true := by
          intro x hx
          rw [hsmall] at hx
          obtain ⟨j, hj, hjx⟩ := List.getElem_of_mem hx
          have hjlen : j < stock.indexOf d + 1 := by
            have h3 := hj
            rw [List.length_take] at h3
            omega
          have hj0 : j < objs0.length := by omega
          have hxj : objs0[j] = x := by
            have h4 : (objs0.take (stock.indexOf d + 1))[j]? = objs0[j]? :=
              List.getElem?_take_of_lt hjlen
            rw [List.getElem?_eq_getElem hj, List.getElem?_eq_getElem hj0] at h4
            have h5 := Option.some.inj h4
            rw [← h5]
            exact hjx
          have hjs : j < stock.length := by omega
          have hxid : x.hashId = stock[j] := by
            rw [← hxj]
            exact hashId_getElem_of_map_eq objs0 stock hal j hj0 hjs
          have hne3 : x.hashId ≠ d0 := by
            intro hxd
            have h6 : stock[j] = d0 := by rw [← hxid]; exact hxd
            have h7 := List.indexOf_getElem hnd j hjs
            rw [h6] at h7
            omega
          simp [hne3]
        have h8 := filter_take_eq objs (fun o => !(o.hashId == d0))
          (stock.indexOf d + 1) hfil
        rw [h8]
        exact hsmall
      have ihres := ih (objs.filter (fun o => !(o.hashId == d0))) hsort2 hnodup2
        ((List.filter_sublist objs).trans hsub) hpref2
      rw [ihres, List.filter_filter]
      refine List.filter_congr ?_
      intro o _
      by_cases h1 : o.hashId = d0 <;> by_cases h2 : o.hashId ∈ L2 <;>
        simp [h1, h2, List.mem_cons]
    · have hstep : delStep stock objs d0 = objs := by
        unfold delStep; rw [if_neg hd0]
      rw [hstep]
      have ihres := ih objs hsort2 hnodup2 hsub
        (fun d hd hds => hpref d (List.mem_cons_of_mem d0 hd) hds)
      rw [ihres]
      refine List.filter_congr ?_
      intro o ho
      have hos : o.hashId ∈ stock := by
        have hmm : o.hashId ∈ objs.map (fun o => o.hashId) :=
          List.mem_map_of_mem _ ho
        exact hmids.subset hmm
      have hne : o.hashId ≠ d0 := fun he => hd0 (he ▸ hos)
      simp [List.mem_cons, hne]

/-- C10: when deletions are enabled and an id is present in the baseline, in
the consolidated `del` set, and as the `HashId` of a consolidated `add`
record, the merged document contains no object with that id: the deletion
removes the baseline object, and the add pass — which filters against the
original baseline id index, still containing the deleted id — drops the add
record. The hypotheses are the documented invariants of the inputs: baseline
ids are unique, `mod` entries are keyed by their record's `HashId`, and the
consolidated `del` list (built via `list(set(...))`) has no duplicates. -/
theorem merge_map_del_wins (base : List Obj) (changes : MapDiffT) (h : Nat)
    (hnd : (base.map (fun o => o.hashId)).Nodup)
    (hwf : ∀ p ∈ changes.mod, (p.2).hashId = p.1)
    (hdnd : changes.del.Nodup)
    (hb : h ∈ base.map (fun o => o.hashId)) (hdel : h ∈ changes.del) :
    ∀ o ∈ merge_map_objs base changes false, o.hashId ≠ h := by
  intro o ho hoh
  have ho2 : o ∈ (List.foldl (delStep (base.map (fun o => o.hashId)))
      ((changes.mod.foldl (modPass (base.map (fun o => o.hashId))) (base, [])).1)
      (List.insertionSort (delOrder (base.map (fun o => o.hashId))) changes.del))
      ++ ((changes.add
            ++ (changes.mod.foldl (modPass (base.map (fun o => o.hashId)))
                  (base, [])).2).filter
          (fun c => !(decide (c.hashId ∈ base.map (fun o => o.hashId))))) :=
    (List.mem_insertionSort hashLe).mp ho
  have hal1 : ((changes.mod.foldl (modPass (base.map (fun o => o.hashId)))
      (base, [])).1).map (fun o => o.hashId) = base.map (fun o => o.hashId) :=
    modFold_map_hashId (base.map (fun o => o.hashId)) changes.mod (base, []) rfl hwf
  rcases List.mem_append.mp ho2 with h1 | h2
  · have heq := delFold_eq_filter (base.map (fun o => o.hashId)) _ hal1 hnd
      (List.insertionSort (delOrder (base.map (fun o => o.hashId))) changes.del) _
      (List.sorted_insertionSort _ _)
      (((List.perm_insertionSort (delOrder (base.map (fun o => o.hashId)))
          changes.del).symm).nodup hdnd)
      (List.Sublist.refl _) (fun _ _ _ => rfl)
    rw [heq] at h1
    have hp := (List.mem_filter.mp h1).2
    simp only [Bool.not_eq_true', decide_eq_false_iff_not] at hp
    rw [hoh] at hp
    exact hp ((List.mem_insertionSort _).mpr hdel)
  · have hp := (List.mem_filter.mp h2).2
    simp only [Bool.not_eq_true', decide_eq_false_iff_not] at hp
    rw [hoh] at hp
    exact hp hb

/-- Baseline object with id 1 of the deletion-wins example. -/
def o1C10 : Obj := ⟨1, "A", [], false, 0⟩

/-- Baseline object with id 5 of the deletion-wins example. -/
def o5C10 : Obj := ⟨5, "B", [], false, 0⟩

/-- Add record with id 5 of the deletion-wins example. -/
def oAddC10 : Obj := ⟨5, "C", [], false, 1⟩

/-- Consolidated diff of the deletion-wins example: id 5 is both deleted and
re-added. -/
def changesC10 : MapDiffT := { add := [oAddC10], mod := [], del := [5] }

/-- Witness instantiating `merge_map_del_wins`: with baseline `[1, 5]` and a
diff that deletes id 5 and also adds a record with id 5, the merged output
contains no object with id 5 (checked here on the computed output `[o1C10]`,
via the theorem). -/
theorem merge_map_del_wins_witness :
    ([o1C10, o5C10].map (fun o => o.hashId)).Nodup ∧
    (5 : Nat) ∈ [o1C10, o5C10].map (fun o => o.hashId) ∧ (5 : Nat) ∈ changesC10.del ∧
    (merge_map_objs [o1C10, o5C10] changesC10 false).all
      (fun o => !(o.hashId == 5)) = true :=
  ⟨by decide, by decide, by decide,
   List.all_eq_true.mpr (fun o ho => by
     simpa using merge_map_del_wins [o1C10, o5C10] changesC10 5 (by decide)
       (by intro p hp; simp [changesC10] at hp) (by decide) (by decide) (by decide) o ho)⟩

/-! ### `get_stock_map` baseline selection, `mubin.py` lines 29-97 and 144-151

File-system lookups are abstracted into a `GameEnv` record holding, for the
map unit at hand, the result of each individual lookup (`none` means the
file or archive entry is missing) together with whether each of the three
game directories can be resolved at all. `util.get_game_file` (util.py lines
515-544) resolves the base-game and update directories unconditionally
before any file check and raises `FileNotFoundError` wholesale when either
is unresolvable; that behaviour is modelled by the `gameDirExists` /
`updateDirExists` gates of `gameFileLookup` and `titleBGLookup`. A returned
`none` stands for a raised `FileNotFoundError` (caught or not, a `none`
overall result of `get_stock_map` stands for the operation failing with
`FileNotFoundError` rather than producing a baseline). -/

structure GameEnv where
  gameDirExists : Bool
  updateDirExists : Bool
  aocDirExists : Bool
  aocPackEntry : Option Doc
  aocMapFile : Option Doc
  updateMapFile : Option Doc
  gameMapFile : Option Doc
  titleBGEntry : Option Doc
deriving DecidableEq

/-- Lookup of the map unit through `util.get_game_file` (util.py lines
515-544): `get_game_dir()` and `get_update_dir()` are resolved first and a
failure of either aborts the whole call (lines 520-521); with `aoc=True` only
the DLC directory is consulted (raising when it is missing), otherwise the
update directory, the base-game directory and finally the DLC directory. -/
def gameFileLookup (env : GameEnv) (aoc : Bool) : Option Doc :=
  if env.gameDirExists && env.updateDirExists then
    if aoc then (if env.aocDirExists then env.aocMapFile else none)
    else
      match env.updateMapFile with
      | some d => some d
      | none =>
        match env.gameMapFile with
        | some d => some d
        | none => if env.aocDirExists then env.aocMapFile else none
  else none

/-- Reading the map unit out of `Pack/TitleBG.pack` (`mubin.py` lines 49-60
and 81-91): the pack itself is located through `util.get_game_file`, which
aborts when the base-game or update directory is unresolvable; pack-missing,
parse failure and a missing entry all leave `map_bytes` unset. -/
def titleBGLookup (env : GameEnv) : Option Doc :=
  if env.gameDirExists && env.updateDirExists then env.titleBGEntry else none

/-- Baseline lookup of `get_stock_map` (`mubin.py` lines 29-97). -/
def get_stock_map (env : GameEnv) (force_vanilla : Bool) : Option Doc :=
  -- lines 32-35: a missing DLC directory forces the vanilla path
  let fv := if env.aocDirExists then force_vanilla else true
  if fv then
    -- lines 38-43: `util.get_update_dir()` raises when unresolvable (caught
    -- by the `except` of line 49), else the update-data path is probed
    if env.updateDirExists then
      match env.updateMapFile with
      | some d => some d
      | none =>
        -- lines 44-48: `util.get_game_dir()` raises when unresolvable
        -- (caught by the same `except`), else the base-game path is read
        if env.gameDirExists then
          match env.gameMapFile with
          | some d => some d
          | none => titleBGLookup env
        else titleBGLookup env
    else titleBGLookup env
  else
    -- lines 62-72: AocMainField.pack entry, probed by direct path access
    -- (no directory resolution involved)
    match env.aocPackEntry with
    | some d => some d
    | none =>
      -- line 76: `get_game_file(map_path, aoc=True)`; a raise is caught
      match gameFileLookup env true with
      | some d => some d
      | none =>
        -- line 79: `get_game_file(map_path)`; a raise is caught
        match gameFileLookup env false with
        | some d => some d
        | none =>
          -- lines 81-91: final TitleBG.pack fallback; here a raise from
          -- `get_game_file('Pack/TitleBG.pack')` is not caught and the
          -- operation fails either way
          titleBGLookup env

/-- Hard-mode marker test of `get_map_diff` (`mubin.py` lines 146-150): true
when some object's printed representation contains `IsHardModeActor` or
`AoC_HardMode_Enabled` (recorded in the object's `hardModeMarker` field). -/
def hasHardMode (m : Doc) : Bool := m.objs.any (fun o => o.hardModeMarker)

/-- Baseline selected by `get_map_diff` when it is handed a document-group key
(`mubin.py` lines 144-151): `stock_map` starts true and is cleared by any
marker object, then is passed as `force_vanilla`. -/
def select_stock_base (env : GameEnv) (mod_map : Doc) : Option Doc :=
  get_stock_map env (!(hasHardMode mod_map))

/-- Keyed form of `get_map_diff`: diff of the modified document against the
selected stock baseline (`none` when no baseline could be located). -/
def get_map_diff_keyed (env : GameEnv) (mod_map : Doc) (no_del link_del : Bool) :
    Option MapDiffT :=
  (select_stock_base env mod_map).map
    (fun base => get_map_diff base mod_map no_del link_del)

/-- Vanilla fallback chain as the amended spec words it: the update-data
file (reachable only when the update directory resolves), then the base-game
file (only when the base-game directory resolves), then the packed
title-background archive entry (whose lookup itself aborts when the
base-game or update directory is unresolvable). -/
def vanillaChain (env : GameEnv) : Option Doc :=
  if env.updateDirExists then
    (env.updateMapFile.or (if env.gameDirExists then env.gameMapFile else none)).or
      (titleBGLookup env)
  else titleBGLookup env

/-- Downloadable-content fallback chain as the amended spec words it: the
`AocMainField.pack` entry (direct path access), then the DLC-directory file
and the shared update/base/DLC lookup — both routed through `get_game_file`
and so failing wholesale when the base-game or update directory is
unresolvable — then the title-background archive entry under the same
directory gate. -/
def dlcChain (env : GameEnv) : Option Doc :=
  (env.aocPackEntry.or (gameFileLookup env true)).or
    ((gameFileLookup env false).or (titleBGLookup env))

/-- C3 (amended): the baseline compared against is chosen by the hard-mode
marker with the polarity the code implements: when some object of the
modified document carries the marker and the DLC directory is present, the
DLC chain is used; otherwise (no marker, or no DLC directory) the vanilla
chain (update-data, base-game, title-background archive) is used. Every
lookup routed through `get_game_file` — and hence every step of the DLC
chain except the `AocMainField.pack` entry — fails wholesale when the
base-game or update directory cannot be resolved. -/
theorem select_stock_base_marker (env : GameEnv) (m : Doc) :
    select_stock_base env m =
      if hasHardMode m && env.aocDirExists then dlcChain env else vanillaChain env := by
  unfold select_stock_base get_stock_map vanillaChain dlcChain gameFileLookup titleBGLookup
  cases hasHardMode m <;> cases env.aocDirExists <;>
    cases env.gameDirExists <;> cases env.updateDirExists <;>
    cases env.aocPackEntry <;> cases env.aocMapFile <;>
    cases env.updateMapFile <;> cases env.gameMapFile <;> simp [Option.or]

/-- Vanilla baseline document of the marker example. -/
def docV : Doc := ⟨[⟨1, "Vanilla", [], false, 0⟩]⟩

/-- Downloadable-content baseline document of the marker example. -/
def docD : Doc := ⟨[⟨1, "DLC", [], false, 0⟩]⟩

/-- Environment of the marker example: all directories resolve, both
baselines available and distinct (the DLC one inside `AocMainField.pack`,
the vanilla one in update data). -/
def envC3 : GameEnv :=
  { gameDirExists := true, updateDirExists := true, aocDirExists := true,
    aocPackEntry := some docD, aocMapFile := none, updateMapFile := some docV,
    gameMapFile := none, titleBGEntry := none }

/-- Environment with an unresolvable base-game directory: the update
directory and its map file are present, the DLC directory exists but its
pack holds no entry for the unit. -/
def envC3broken : GameEnv :=
  { gameDirExists := false, updateDirExists := true, aocDirExists := true,
    aocPackEntry := none, aocMapFile := none, updateMapFile := some docV,
    gameMapFile := none, titleBGEntry := some docV }

/-- Modified document carrying a hard-mode marker object. -/
def modMarked : Doc := ⟨[⟨7, "Enemy", [], true, 0⟩]⟩

/-- Modified document carrying no hard-mode marker. -/
def modPlain : Doc := ⟨[⟨7, "Enemy", [], false, 0⟩]⟩

/-- C3 counterexample: with both baselines available, a modified document
carrying the hard-mode marker is compared against the DLC baseline (not the
vanilla one as claimed), and a marker-free document is compared against the
vanilla update-data baseline (not the DLC-preferred chain as claimed).
Additionally, with an unresolvable base-game directory the two paths
diverge further: every `get_game_file`-routed step of the DLC chain aborts
wholesale, so the marked document finds no baseline at all, while the
unmarked document still reads the update-data file via its direct path
probe. -/
theorem select_stock_base_counterexample :
    select_stock_base envC3 modMarked = some docD ∧
    select_stock_base envC3 modPlain = some docV ∧
    docD ≠ docV ∧
    get_map_diff_keyed envC3 modMarked false false
      = some (get_map_diff docD modMarked false false) ∧
    select_stock_base envC3broken modMarked = none ∧
    select_stock_base envC3broken modPlain = some docV := by decide

/-! ### `MapMerger.perform_merge` effects, `mubin.py` lines 376-420

The orchestrator's file-system effects are modelled as the list of operations
it performs on an abstract initial state; the per-group merge work is
abstracted to the writes `merge_map` performs. -/

inductive FsOp where
  | writeAocPackEmpty
  | rmtreeAocMainField
  | rmtreeContentMainField
  | unlinkMapLog
  | writeMapUnit (k : MapKey)
  | writeMapLog (ks : List MapKey)
deriving DecidableEq

/-- State examined by the reset step of `perform_merge`. -/
structure MergeFsState where
  aocPackExists : Bool
  aocPackSize : Nat
  logExists : Bool
deriving DecidableEq

/-- Reset step (`mubin.py` lines 380-392): empty the `AocMainField.pack`
placeholder when it is missing or non-empty, remove both merged-map output
trees, and delete any prior size-table log. -/
def resetOps (st : MergeFsState) : List FsOp :=
  (if st.aocPackExists = false ∨ 0 < st.aocPackSize then [FsOp.writeAocPackEmpty] else [])
    ++ [FsOp.rmtreeAocMainField, FsOp.rmtreeContentMainField]
    ++ (if st.logExists then [FsOp.unlinkMapLog] else [])

/-- File operations performed by `perform_merge` (`mubin.py` lines 377-420):
reset, then — only when the consolidated diff set is non-empty — one pair of
map-unit writes per document group and the final size-table log write. -/
def perform_merge_ops (st : MergeFsState) (allDiffs : List (List (MapKey × MapDiffT))) :
    List FsOp :=
  let map_diffs := consolidate_diffs allDiffs
  if map_diffs.isEmpty then resetOps st
  else resetOps st ++ map_diffs.map (fun p => FsOp.writeMapUnit p.1)
    ++ [FsOp.writeMapLog (map_diffs.map (fun p => p.1))]

/-- Initial state of the no-op example: the pack placeholder is missing and a
prior size-table log exists. -/
def stC7 : MergeFsState := { aocPackExists := false, aocPackSize := 0, logExists := true }

/-- C7 counterexample: with no logged diffs, `perform_merge` still writes the
empty `AocMainField.pack` placeholder, and it deletes the prior size-table
log without producing any log (empty or otherwise) — the operation list
contains a file write and no `writeMapLog`. -/
theorem perform_merge_noop_counterexample :
    perform_merge_ops stC7 [] =
      [FsOp.writeAocPackEmpty, FsOp.rmtreeAocMainField, FsOp.rmtreeContentMainField,
       FsOp.unlinkMapLog] ∧
    FsOp.writeAocPackEmpty ∈ perform_merge_ops stC7 [] := by decide

/-- C7 (amended): when no installed mod contributes a map diff,
`perform_merge` stops right after the reset step: it writes no merged map
units and no size-table log (a prior log is deleted and left absent); its
only operations are the reset ones, among which the only write is emptying
the `AocMainField.pack` placeholder when that is missing or non-empty. -/
theorem perform_merge_noop (st : MergeFsState)
    (allDiffs : List (List (MapKey × MapDiffT)))
    (hempty : consolidate_diffs allDiffs = []) :
    perform_merge_ops st allDiffs = resetOps st ∧
    ∀ op ∈ perform_merge_ops st allDiffs,
      op = FsOp.writeAocPackEmpty ∨ op = FsOp.rmtreeAocMainField ∨
      op = FsOp.rmtreeContentMainField ∨ op = FsOp.unlinkMapLog := by
  have h1 : perform_merge_ops st allDiffs = resetOps st := by
    unfold perform_merge_ops
    rw [hempty]
    rfl
  refine ⟨h1, ?_⟩
  rw [h1]
  intro op hop
  unfold resetOps at hop
  by_cases hc1 : (st.aocPackExists = false ∨ 0 < st.aocPackSize) <;>
    by_cases hc2 : st.logExists = true <;>
    simp [hc1, hc2] at hop <;> tauto

/-- Witness instantiating `perform_merge_noop` at the empty diff-log list. -/
theorem perform_merge_noop_witness :
    consolidate_diffs ([] : List (List (MapKey × MapDiffT))) = [] ∧
    perform_merge_ops stC7 [] = resetOps stC7 :=
  ⟨rfl, (perform_merge_noop stC7 [] rfl).1⟩

/-- Worker count of the merge pool (`mubin.py` line 402):
`min(cpu_count() - 1, len(map_diffs))`, as a Python (unbounded) integer. -/
def num_threads (cpu : Nat) (n : Nat) : Int :=
  min ((cpu : Int) - 1) (n : Int)

/-- C8 counterexample: with hardware parallelism 1 and one document group,
the code requests `min(0, 1) = 0` workers, not the claimed
`max(1, min(0, 1)) = 1` — there is no lower clamp in the code. -/
theorem num_threads_counterexample :
    num_threads 1 1 = 0 ∧ num_threads 1 1 ≠ max 1 (min ((1 : Int) - 1) 1) := by decide

/-- C8 (amended): the pool size is `min(parallelism - 1, groups)` with no
lower clamp; whenever the hardware parallelism is at least 2 and at least one
group needs merging, this coincides with `max(1, min(parallelism - 1,
groups))` and is at least 1. -/
theorem num_threads_formula (cpu n : Nat) (hcpu : 2 ≤ cpu) (hn : 1 ≤ n) :
    num_threads cpu n = max 1 (min ((cpu : Int) - 1) (n : Int)) ∧
    1 ≤ num_threads cpu n := by
  have h1 : (1 : Int) ≤ (cpu : Int) - 1 := by omega
  have h2 : (1 : Int) ≤ (n : Int) := by exact_mod_cast hn
  have h3 : (1 : Int) ≤ min ((cpu : Int) - 1) (n : Int) := le_min h1 h2
  exact ⟨(max_eq_right h3).symm, h3⟩

/-- Witness instantiating `num_threads_formula` at parallelism 4, 2 groups. -/
theorem num_threads_formula_witness :
    (2 : Nat) ≤ 4 ∧ (1 : Nat) ≤ 2 ∧
    (num_threads 4 2 = max 1 (min ((4 : Int) - 1) (2 : Int)) ∧ 1 ≤ num_threads 4 2) :=
  ⟨by decide, by decide, num_threads_formula 4 2 (by decide) (by decide)⟩

/-! ### `get_dungeonstatic_diff`, `mubin.py` lines 243-277

Entrance records are keyed by their `Map` name; the `Rotate` and `Translate`
values are opaque to the differ (only compared for equality), modelled as
integers. -/

/-- Dungeon-entrance record of the `StartPos` list: its `Map` name, its
`Rotate` and `Translate` values, and an opaque remainder. -/
structure Dungeon where
  map : String
  rotate : Int
  translate : Int
  extra : Nat
deriving DecidableEq

/-- Value stored in the diff dict: either the whole modified record (new map
name) or a partial dict holding only the changed fields. -/
inductive DEntry where
  | whole (d : Dungeon)
  | fields (rot : Option Int) (trans : Option Int)
deriving DecidableEq

/-- Python `diffs[k]['Translate'] = t` applied to one stored entry. -/
def withTranslate (e : DEntry) (t : Int) : DEntry :=
  match e with
  | .whole d => .whole { d with translate := t }
  | .fields r _ => .fields r (some t)

/-- Python `diffs[k]['Translate'] = t` on the diff dict. -/
def setTranslate (l : List (String × DEntry)) (k : String) (t : Int) :
    List (String × DEntry) :=
  l.map (fun p => if p.1 == k then (p.1, withTranslate p.2 t) else p)

/-- Rotate comparison block (`mubin.py` lines 268-271). -/
def rotPart (diffs : List (String × DEntry)) (d bd : Dungeon) :
    List (String × DEntry) :=
  if d.rotate ≠ bd.rotate then dictSet diffs d.map (.fields (some d.rotate) none)
  else diffs

/-- Translate comparison block (`mubin.py` lines 272-275): create an empty
entry when the map name has no entry yet, then assign its `Translate`. -/
def transPart (diffs : List (String × DEntry)) (d bd : Dungeon) :
    List (String × DEntry) :=
  if d.translate ≠ bd.translate then
    setTranslate
      (if hasKey diffs d.map then diffs else dictSet diffs d.map (.fields none none))
      d.map d.translate
  else diffs

/-- One iteration of the `get_dungeonstatic_diff` loop (`mubin.py` lines
263-275): a map name absent from the baseline stores the whole record,
otherwise the changed fields are recorded against the baseline record at the
name's first baseline position. -/
def dstaticStep (base_pos : List Dungeon) (base_names : List String)
    (diffs : List (String × DEntry)) (d : Dungeon) : List (String × DEntry) :=
  if d.map ∈ base_names then
    match base_pos[base_names.indexOf d.map]? with
    | none => diffs
    | some bd => transPart (rotPart diffs d bd) d bd
  else dictSet diffs d.map (.whole d)

/-- Diff of the dungeon-entrance document (`mubin.py` lines 261-277). -/
def get_dungeonstatic_diff (base_pos mod_pos : List Dungeon) :
    List (String × DEntry) :=
  mod_pos.foldl (dstaticStep base_pos (base_pos.map (fun b => b.map))) []

/-- Entry the spec expects for one modified record: the whole record for a
new map name; otherwise a partial record holding `Rotate` exactly when it
differs and `Translate` exactly when it differs, and no entry when neither
differs. -/
def dstaticExpected (base_pos : List Dungeon) (d : Dungeon) : Option DEntry :=
  match base_pos[(base_pos.map (fun b => b.map)).indexOf d.map]? with
  | none => some (.whole d)
  | some bd =>
    if d.rotate ≠ bd.rotate ∨ d.translate ≠ bd.translate then
      some (.fields (if d.rotate ≠ bd.rotate then some d.rotate else none)
                    (if d.translate ≠ bd.translate then some d.translate else none))
    else none

theorem hasKey_eq_isSome [BEq κ] (l : List (κ × α)) (k : κ) :
    hasKey l k = (dictFind l k).isSome := by
  induction l with
  | nil => rfl
  | cons p t ih =>
    cases hp : (p.1 == k) with
    | true => simp [hasKey, dictFind, List.find?, hp]
    | false =>
      simp only [hasKey, dictFind, List.any_cons, List.find?, hp, Bool.false_or]
      simpa [hasKey, dictFind] using ih

theorem dictFind_map_on_ne [BEq κ] [LawfulBEq κ] (l : List (κ × α)) (km k : κ)
    (f : α → α) (hk : (km == k) = false) :
    dictFind (l.map (fun p => if p.1 == km then (p.1, f p.2) else p)) k
      = dictFind l k := by
  induction l with
  | nil => rfl
  | cons q s ih =>
    by_cases hq : (q.1 == km) = true
    · have hq' : (q.1 == k) = false := by rw [eq_of_beq hq]; exact hk
      simpa [dictFind, List.find?, hq, hq'] using ih
    · simp only [Bool.not_eq_true] at hq
      cases hq' : (q.1 == k) with
      | true => simp [dictFind, List.find?, hq, hq']
      | false => simpa [dictFind, List.find?, hq, hq'] using ih

theorem dictFind_setTranslate_self (l : List (String × DEntry)) (k : String)
    (t : Int) (e : DEntry) (h : dictFind l k = some e) :
    dictFind (setTranslate l k t) k = some (withTranslate e t) := by
  induction l with
  | nil => simp [dictFind] at h
  | cons q s ih =>
    by_cases hq : (q.1 == k) = true
    · have he : q.2 = e := by
        simpa [dictFind, List.find?, hq] using h
      simp [setTranslate, dictFind, List.find?, hq, he]
    · simp only [Bool.not_eq_true] at hq
      have h2 : dictFind s k = some e := by
        simpa [dictFind, List.find?, hq] using h
      simpa [setTranslate, dictFind, List.find?, hq] using ih h2

theorem dictFind_setTranslate_ne (l : List (String × DEntry)) (km k : String)
    (t : Int) (hk : (km == k) = false) :
    dictFind (setTranslate l km t) k = dictFind l k :=
  dictFind_map_on_ne l km k (fun e => withTranslate e t) hk

theorem dstaticStep_none (base_pos : List Dungeon) (base_names : List String)
    (diffs : List (String × DEntry)) (d : Dungeon)
    (hmem : d.map ∈ base_names)
    (hbd : base_pos[base_names.indexOf d.map]? = none) :
    dstaticStep base_pos base_names diffs d = diffs := by
  unfold dstaticStep
  rw [if_pos hmem, hbd]

theorem dstaticStep_some (base_pos : List Dungeon) (base_names : List String)
    (diffs : List (String × DEntry)) (d bd : Dungeon)
    (hmem : d.map ∈ base_names)
    (hbd : base_pos[base_names.indexOf d.map]? = some bd) :
    dstaticStep base_pos base_names diffs d = transPart (rotPart diffs d bd) d bd := by
  unfold dstaticStep
  rw [if_pos hmem, hbd]

theorem dstaticStep_new (base_pos : List Dungeon) (base_names : List String)
    (diffs : List (String × DEntry)) (d : Dungeon)
    (hmem : d.map ∉ base_names) :
    dstaticStep base_pos base_names diffs d = dictSet diffs d.map (.whole d) := by
  unfold dstaticStep
  rw [if_neg hmem]

theorem dstaticExpected_some (base_pos : List Dungeon) (d bd : Dungeon)
    (hbd : base_pos[(base_pos.map (fun b => b.map)).indexOf d.map]? = some bd) :
    dstaticExpected base_pos d =
      (if d.rotate ≠ bd.rotate ∨ d.translate ≠ bd.translate then
        some (.fields (if d.rotate ≠ bd.rotate then some d.rotate else none)
                      (if d.translate ≠ bd.translate then some d.translate else none))
      else none) := by
  unfold dstaticExpected
  rw [hbd]

theorem dstaticStep_other (base_pos : List Dungeon) (base_names : List String)
    (diffs : List (String × DEntry)) (d : Dungeon) (k : String) (hk : k ≠ d.map) :
    dictFind (dstaticStep base_pos base_names diffs d) k = dictFind diffs k := by
  have hbeq : (k == d.map) = false := by simpa using hk
  have hbeq2 : (d.map == k) = false := by simpa using fun h => hk h.symm
  by_cases hmem : d.map ∈ base_names
  · cases hbd : base_pos[base_names.indexOf d.map]? with
    | none => rw [dstaticStep_none base_pos base_names diffs d hmem hbd]
    | some bd =>
      rw [dstaticStep_some base_pos base_names diffs d bd hmem hbd]
      have h1 : dictFind (rotPart diffs d bd) k = dictFind diffs k := by
        unfold rotPart
        split
        · exact dictFind_dictSet_ne diffs d.map k _ hbeq
        · rfl
      unfold transPart
      split
      · rw [dictFind_setTranslate_ne _ d.map k _ hbeq2]
        split
        · exact h1
        · rw [dictFind_dictSet_ne _ d.map k _ hbeq]
          exact h1
      · exact h1
  · rw [dstaticStep_new base_pos base_names diffs d hmem]
    exact dictFind_dictSet_ne diffs d.map k _ hbeq

theorem dstaticFold_other (base_pos : List Dungeon) (base_names : List String)
    (L : List Dungeon) :
    ∀ (diffs : List (String × DEntry)) (k : String), (∀ d ∈ L, k ≠ d.map) →
      dictFind (L.foldl (dstaticStep base_pos base_names) diffs) k
        = dictFind diffs k := by
  induction L with
  | nil => intro diffs k _; rfl
  | cons d0 T ih =>
    intro diffs k hk
    rw [List.foldl_cons]
    rw [ih _ k (fun d hd => hk d (List.mem_cons_of_mem d0 hd))]
    exact dstaticStep_other base_pos base_names diffs d0 k
      (hk d0 (List.mem_cons_self d0 T))

theorem dstaticStep_self (base_pos : List Dungeon)
    (diffs : List (String × DEntry)) (d : Dungeon)
    (hnone : dictFind diffs d.map = none) :
    dictFind (dstaticStep base_pos (base_pos.map (fun b => b.map)) diffs d) d.map
      = dstaticExpected base_pos d := by
  by_cases hmem : d.map ∈ base_pos.map (fun b => b.map)
  · have hlt : (base_pos.map (fun b => b.map)).indexOf d.map
        < base_pos.length := by
      have h := List.indexOf_lt_length.mpr hmem
      simpa using h
    cases hbd : base_pos[(base_pos.map (fun b => b.map)).indexOf d.map]? with
    | none => exact absurd hbd (by simp [List.getElem?_eq_getElem hlt])
    | some bd =>
      rw [dstaticStep_some base_pos _ diffs d bd hmem hbd,
        dstaticExpected_some base_pos d bd hbd]
      by_cases hrot : d.rotate ≠ bd.rotate <;> by_cases htr : d.translate ≠ bd.translate
      · unfold transPart rotPart
        rw [if_pos hrot, if_pos htr]
        have h1 := dictFind_dictSet_self diffs d.map (DEntry.fields (some d.rotate) none)
        have h2 : hasKey (dictSet diffs d.map (DEntry.fields (some d.rotate) none)) d.map
            = true := by rw [hasKey_eq_isSome, h1]; rfl
        rw [if_pos h2, dictFind_setTranslate_self _ _ _ _ h1]
        simp [withTranslate, hrot, htr]
      · unfold transPart rotPart
        rw [if_pos hrot, if_neg htr, dictFind_dictSet_self]
        simp [hrot, htr]
      · unfold transPart rotPart
        rw [if_neg hrot, if_pos htr]
        have h2 : hasKey diffs d.map = false := by rw [hasKey_eq_isSome, hnone]; rfl
        rw [if_neg (by simp [h2])]
        have h1 := dictFind_dictSet_self diffs d.map (DEntry.fields none none)
        rw [dictFind_setTranslate_self _ _ _ _ h1]
        simp [withTranslate, hrot, htr]
      · unfold transPart rotPart
        rw [if_neg hrot, if_neg htr, hnone]
        simp [hrot, htr]
  · have hge : base_pos.length ≤ (base_pos.map (fun b => b.map)).indexOf d.map := by
      have h := List.indexOf_of_not_mem hmem
      simp only [List.length_map] at h
      omega
    have he : dstaticExpected base_pos d = some (.whole d) := by
      unfold dstaticExpected
      rw [List.getElem?_eq_none hge]
    rw [dstaticStep_new base_pos _ diffs d hmem, he]
    exact dictFind_dictSet_self diffs d.map _

theorem dstaticFold_spec (base_pos : List Dungeon) (L : List Dungeon) :
    ∀ (diffs : List (String × DEntry)),
      (L.map (fun d => d.map)).Nodup →
      (∀ d ∈ L, dictFind diffs d.map = none) →
      ∀ d ∈ L,
        dictFind (L.foldl (dstaticStep base_pos (base_pos.map (fun b => b.map))) diffs)
            d.map
          = dstaticExpected base_pos d := by
  induction L with
  | nil => intro diffs _ _ d hd; simp at hd
  | cons d0 T ih =>
    intro diffs hnd hacc d hd
    rw [List.foldl_cons]
    have hnd2 : (T.map (fun d => d.map)).Nodup := by
      simp only [List.map_cons] at hnd
      exact hnd.of_cons
    have hd0nin : d0.map ∉ T.map (fun d => d.map) := by
      simp only [List.map_cons] at hnd
      exact (List.nodup_cons.mp hnd).1
    rcases List.mem_cons.mp hd with rfl | hdT
    · have hother : ∀ e ∈ T, d.map ≠ e.map := by
        intro e he hcon
        exact hd0nin (hcon ▸ List.mem_map_of_mem _ he)
      rw [dstaticFold_other base_pos _ T _ d.map hother]
      exact dstaticStep_self base_pos diffs d (hacc d (List.mem_cons_self _ _))
    · refine ih (dstaticStep base_pos _ diffs d0) hnd2 ?_ d hdT
      intro e he
      have hne : e.map ≠ d0.map := by
        intro hcon
        exact hd0nin (hcon ▸ List.mem_map_of_mem _ he)
      rw [dstaticStep_other base_pos _ diffs d0 e.map hne]
      exact hacc e (List.mem_cons_of_mem _ he)

/-- C9: for every baseline and modified dungeon-entrance document whose map
names are distinct, `get_dungeonstatic_diff` maps each modified record with a
map name present in the baseline to a partial record holding `Rotate` exactly
when the `Rotate` values differ and `Translate` exactly when the `Translate`
values differ (no entry when neither differs), and each record with a map
name absent from the baseline to the whole modified record. -/
theorem get_dungeonstatic_diff_spec (base_pos mod_pos : List Dungeon)
    (hnd : (mod_pos.map (fun d => d.map)).Nodup) :
    ∀ d ∈ mod_pos,
      dictFind (get_dungeonstatic_diff base_pos mod_pos) d.map
        = dstaticExpected base_pos d := by
  unfold get_dungeonstatic_diff
  exact dstaticFold_spec base_pos mod_pos [] hnd (fun _ _ => rfl)

/-- Baseline dungeon-entrance document of the witness example. -/
def dsBaseC9 : List Dungeon :=
  [⟨"A", 0, 0, 0⟩, ⟨"B", 1, 1, 0⟩, ⟨"C", 2, 2, 0⟩]

/-- Modified dungeon-entrance document of the witness example: `A` rotated,
`B` translated, `C` untouched, `D` new. -/
def dsModC9 : List Dungeon :=
  [⟨"A", 9, 0, 0⟩, ⟨"B", 1, 8, 0⟩, ⟨"C", 2, 2, 0⟩, ⟨"D", 3, 3, 0⟩]

/-- Witness instantiating `get_dungeonstatic_diff_spec` on a document with a
rotated entrance, a translated entrance, an unchanged one and a new one. -/
theorem get_dungeonstatic_diff_spec_witness :
    (dsModC9.map (fun d => d.map)).Nodup ∧
    dictFind (get_dungeonstatic_diff dsBaseC9 dsModC9) "A"
      = dstaticExpected dsBaseC9 ⟨"A", 9, 0, 0⟩ ∧
    dstaticExpected dsBaseC9 ⟨"A", 9, 0, 0⟩ = some (.fields (some 9) none) ∧
    dstaticExpected dsBaseC9 ⟨"B", 1, 8, 0⟩ = some (.fields none (some 8)) ∧
    dstaticExpected dsBaseC9 ⟨"C", 2, 2, 0⟩ = none ∧
    dstaticExpected dsBaseC9 ⟨"D", 3, 3, 0⟩ = some (.whole ⟨"D", 3, 3, 0⟩) :=
  ⟨by decide,
   get_dungeonstatic_diff_spec dsBaseC9 dsModC9 (by decide) ⟨"A", 9, 0, 0⟩ (by decide),
   by decide, by decide, by decide, by decide⟩

end BCML
